import Mathlib

/-!
Verification of the `mcp-secrets` example Python implementation
(`src/example_python/mcp_secrets/`): the keyring-backed secret store
(`storage.py`), the permission-gated retrieval in `__init__.py`
(`MCPSecretsManager`), and the interactive collection flow (`fetcher.py`).

The embedding models one `MCPSecretsStorage` instance, hence one keyring
service namespace.  The keyring backend (`keyring.get_password` /
`set_password` / `delete_password`) is modelled as an association list from
key (the "username") to stored value.  Python strings stored through the
backend are either ordinary secret payloads or the JSON-serialized index
list written under the reserved key `"__secret_index__"`; the value type
`KVal` keeps the two shapes apart: `KVal.str s` stands for the literal
string `s`, and `KVal.idx l` stands for `json.dumps(list(l))` as written by
`_serialize_index_content`.  `_deserialize_index_content`'s
`json.JSONDecodeError` branch (malformed index data yields the empty set)
is the `KVal.str` case of `deserializeIndex`.
-/

/-- A value held by the keyring backend: either a plain secret string, or
the serialized secret index (`json.dumps` of a list of names). -/
inductive KVal where
  | str (s : String)
  | idx (names : List String)
deriving DecidableEq, Repr

/-- The keyring state for one service namespace: key/value pairs. -/
abbrev Keyring := List (String × KVal)

/-- `keyring.get_password(service, key)`: `none` models Python `None`. -/
def kget : Keyring → String → Option KVal
  | [], _ => none
  | (k, v) :: rest, key => if k = key then some v else kget rest key

/-- `keyring.set_password(service, key, val)`: overwrite or append. -/
def kset : Keyring → String → KVal → Keyring
  | [], key, val => [(key, val)]
  | (k, v) :: rest, key, val =>
      if k = key then (key, val) :: rest else (k, v) :: kset rest key val

/-- Removal of every entry under `key` (the effect of a successful
`delete_password` on the backend state). -/
def kerase : Keyring → String → Keyring
  | [], _ => []
  | (k, v) :: rest, key =>
      if k = key then kerase rest key else (k, v) :: kerase rest key

/-- `keyring.delete_password(service, key)`: fails (raises
`PasswordDeleteError`, modelled as `none`) when the key is absent. -/
def kdelete (kr : Keyring) (key : String) : Option Keyring :=
  if (kget kr key).isSome then some (kerase kr key) else none

theorem kget_kset_self (kr : Keyring) (k : String) (v : KVal) :
    kget (kset kr k v) k = some v := by
  induction kr with
  | nil => simp [kget, kset]
  | cons hd tl ih =>
      by_cases h : hd.1 = k
      · simp [kset, h, kget]
      · simp [kset, h, kget, ih]

theorem kget_kset_ne (kr : Keyring) (k k' : String) (v : KVal) (hne : k' ≠ k) :
    kget (kset kr k v) k' = kget kr k' := by
  induction kr with
  | nil => simp [kget, kset, Ne.symm hne]
  | cons hd tl ih =>
      by_cases h : hd.1 = k
      · subst h
        simp [kset, kget, Ne.symm hne]
      · by_cases h' : hd.1 = k'
        · simp [kset, h, kget, h', hne]
        · simp [kset, h, kget, h', ih]

theorem kget_kerase_ne (kr : Keyring) (k k' : String) (hne : k' ≠ k) :
    kget (kerase kr k) k' = kget kr k' := by
  induction kr with
  | nil => simp [kerase]
  | cons hd tl ih =>
      by_cases h : hd.1 = k
      · simp [kerase, h, kget, Ne.symm hne, ih]
      · by_cases h' : hd.1 = k'
        · simp [kerase, h, kget, h', hne]
        · simp [kerase, h, kget, h', ih]

theorem kget_kerase_self (kr : Keyring) (k : String) :
    kget (kerase kr k) k = none := by
  induction kr with
  | nil => simp [kerase, kget]
  | cons hd tl ih =>
      by_cases h : hd.1 = k
      · simpa [kerase, h] using ih
      · simp [kerase, h, kget, ih]

theorem kdelete_some {kr kr' : Keyring} {k : String}
    (h : kdelete kr k = some kr') :
    kget kr' k = none ∧ ∀ k', k' ≠ k → kget kr' k' = kget kr k' := by
  unfold kdelete at h
  by_cases hs : (kget kr k).isSome
  · simp [hs] at h
    subst h
    exact ⟨kget_kerase_self kr k, fun k' hne => kget_kerase_ne kr k k' hne⟩
  · simp [hs] at h

theorem kdelete_isSome (kr : Keyring) (k : String) :
    (kdelete kr k).isSome = (kget kr k).isSome := by
  unfold kdelete
  by_cases hs : (kget kr k).isSome <;> simp [hs]

/-!
`MCPSecretsStorage` (storage.py).  One instance is bound to one service
name, so the service-name string is dropped from the state.  The reserved
index key is `"__secret_index__"`.
-/

/-- The reserved keyring key under which the index is persisted. -/
def indexKey : String := "__secret_index__"

/-- Minimal JSON string escaping used by `json.dumps` for the names that
occur in an index (backslash and double quote; control characters do not
occur in the states the theorems range over). -/
def jsonEscape (s : String) : String :=
  String.join (s.data.map (fun c =>
    if c = '\\' then "\\\\" else if c = '"' then "\\\"" else String.singleton c))

/-- `_serialize_index_content`: `json.dumps(list(index_set))`. -/
def serializeIndexContent (names : List String) : String :=
  "[" ++ String.intercalate ", " (names.map (fun n => "\"" ++ jsonEscape n ++ "\"")) ++ "]"

/-- The literal string a `KVal` stands for on the backend. -/
def KVal.render : KVal → String
  | .str s => s
  | .idx names => serializeIndexContent names

/-- `_deserialize_index_content`: parse the stored index back to a set.
`KVal.idx l` was written by `_serialize_index_content`, so `json.loads`
recovers the list and `set(data)` deduplicates it.  A plain string under
the index key is data not written by `_serialize_index_content`; for it
the `json.JSONDecodeError` / non-list / falsy branches yield the empty
set. -/
def deserializeIndexContent : Option KVal → List String
  | none => []
  | some (.str _) => []
  | some (.idx names) => names.dedup

/-- `_get_secret_index`. -/
def getSecretIndex (kr : Keyring) : List String :=
  deserializeIndexContent (kget kr indexKey)

/-- `_update_secret_index`: read-modify-write adding one name (`set.add`). -/
def updateSecretIndex (kr : Keyring) (name : String) : Keyring :=
  let index := getSecretIndex kr
  let index' := if name ∈ index then index else index ++ [name]
  kset kr indexKey (.idx index')

/-- `_remove_from_secret_index`: `set.discard`, then either rewrite the
index or delete the index key when the set became empty (a failure of
that delete is swallowed). -/
def removeFromSecretIndex (kr : Keyring) (name : String) : Keyring :=
  let index := (getSecretIndex kr).filter (fun n => n ≠ name)
  if index.isEmpty then
    match kdelete kr indexKey with
    | some kr' => kr'
    | none => kr
  else
    kset kr indexKey (.idx index)

/-- `store_secret`: write the value, then update the index.
`_serialize_secret_content` is `str(content)`, the identity on strings. -/
def store_secret (kr : Keyring) (name content : String) : Keyring :=
  updateSecretIndex (kset kr name (.str content)) name

/-- `retrieve_secret`: direct keyed read; `none` models Python `None`.
`_deserialize_secret_content` returns the stored string as is. -/
def retrieve_secret (kr : Keyring) (name : String) : Option String :=
  (kget kr name).map KVal.render

/-- `delete_secret`: `keyring.delete_password` (raises when absent,
modelled as `none`), then remove the name from the index. -/
def delete_secret (kr : Keyring) (name : String) : Option Keyring :=
  (kdelete kr name).map (fun kr' => removeFromSecretIndex kr' name)

/-- `list_secrets`: `list(index) if index else []`. -/
def list_secrets (kr : Keyring) : List String :=
  let index := getSecretIndex kr
  if index.isEmpty then [] else index

/-- The `for secret_name in index: self.delete_secret(secret_name)` loop of
`_delete_all_secrets`; a `delete_secret` failure propagates (`none`).
Python iterates the set in an unspecified order; the model iterates the
deserialized list. -/
def deleteEachSecret : List String → Keyring → Option Keyring
  | [], kr => some kr
  | n :: ns, kr =>
      match delete_secret kr n with
      | none => none
      | some kr' => deleteEachSecret ns kr'

/-- `_delete_all_secrets`: delete every indexed secret, then delete the
index key inside `try/except: pass` (only that final delete is guarded). -/
def deleteAllSecrets (kr : Keyring) : Option Keyring :=
  match deleteEachSecret (getSecretIndex kr) kr with
  | none => none
  | some kr' =>
      match kdelete kr' indexKey with
      | some kr'' => some kr''
      | none => some kr'

/-- `clear_secrets`. -/
def clear_secrets (kr : Keyring) : Option Keyring :=
  deleteAllSecrets kr

/-- `secret_exists` (manager level): `secret_name in self.list_secrets()`. -/
def secret_exists (kr : Keyring) (name : String) : Bool :=
  name ∈ list_secrets kr

/-!
`MCPSecretsManager` (`__init__.py`).  The manager holds a storage binding
and the in-memory `session_permissions` cache (a dict whose keys alone
matter: membership of a name means a session grant).  The cache is
modelled as a list of names with `List.insert` for `d[name] = True`.

`retrieve_secret_with_permission` is async and calls `ctx.elicit` once at
most; the embedding passes the elicitation outcome in as a parameter and
records in `prompted` whether that call was reached.  Exceptions are the
`Except.error` case carrying the Python message.
-/

/-- Outcome of `ctx.elicit`: `action` and optional textual `data`
(the chosen option, absent or empty when nothing was chosen). -/
structure ElicitResult where
  action : String
  data : Option String
deriving DecidableEq, Repr

/-- Python truthiness of `result.data`: falsy when `None` or `""`. -/
def dataFalsy : Option String → Bool
  | none => true
  | some s => s = ""

/-- Drop leading whitespace characters. -/
def stripLeading : List Char → List Char
  | [] => []
  | c :: cs => if c.isWhitespace then stripLeading cs else c :: cs

/-- Python `str.strip()`: remove whitespace from both ends. -/
def pyStrip (s : String) : String :=
  String.mk (List.reverse (stripLeading (List.reverse (stripLeading s.data))))

/-- Result of one `retrieve_secret_with_permission` call: the returned
value or raised message, the `session_permissions` cache afterwards, and
whether `ctx.elicit` was invoked. -/
structure PermResult where
  outcome : Except String (Option String)
  perms : List String
  prompted : Bool
deriving Repr

/-- `MCPSecretsManager.retrieve_secret_with_permission`, for a manager
whose storage is initialized.  `kr` is the keyring state, `perms` the
`session_permissions` cache, `bypass` the value of
`MCP_BYPASS_SECRET_USE_CONFIRM`, `hasCtx` whether `ctx` is truthy, and
`response` what `ctx.elicit` returns if it is reached. -/
def retrieve_secret_with_permission (kr : Keyring) (perms : List String)
    (name : String) (bypass hasCtx : Bool) (response : ElicitResult) :
    PermResult :=
  if ¬ secret_exists kr name then
    ⟨.ok none, perms, false⟩
  else if bypass then
    ⟨.ok (retrieve_secret kr name), perms, false⟩
  else if name ∈ perms then
    ⟨.ok (retrieve_secret kr name), perms, false⟩
  else if ¬ hasCtx then
    ⟨.error "Context required for permission elicitation", perms, false⟩
  else
    if response.action ≠ "accept" ∨ dataFalsy response.data then
      ⟨.error ("Permission denied for secret: " ++ name), perms, true⟩
    else
      let choice := pyStrip (response.data.getD "")
      if choice = "Deny" then
        ⟨.error ("Permission denied for secret: " ++ name), perms, true⟩
      else if choice = "Allow for Session" then
        ⟨.ok (retrieve_secret kr name), perms.insert name, true⟩
      else
        ⟨.ok (retrieve_secret kr name), perms, true⟩

/-- The observable state of an `MCPSecretsManager` object: whether
`secrets_storage` is bound (and to which server name) and the
`session_permissions` cache. -/
structure ManagerState where
  storageServer : Option String
  sessionPermissions : List String
deriving DecidableEq, Repr

/-- `MCPSecretsManager.__init__(server_name)`.  The body sets
`secrets_storage = None` and `session_permissions = {}`; the guard
`if server_name:` is a Python truthiness test, so only when `server_name`
is neither `None` nor the empty string does the body go on to call
`self._initalize_manager(server_name)`, a method defined nowhere in the
class or module, so that call raises `AttributeError` before a storage is
ever bound.  A `None` or empty server name skips the guard and the
constructor returns an unbound manager. -/
def managerInit (server_name : Option String) : Except String ManagerState :=
  match server_name with
  | none => .ok ⟨none, []⟩
  | some s =>
      if s = "" then .ok ⟨none, []⟩
      else .error "AttributeError: MCPSecretsManager has no attribute _initalize_manager"

/-- `MCPSecretsManager.initialize(server_name)`: binds storage to the
server name and resets the session permission cache.
(`MCPSecretsStorage.__init__` may additionally clear the keyring when
`SECRETS_STORAGE_CLEAR` is set; that env-driven side effect is independent
of the manager state and not modelled here.) -/
def managerInitialize (_m : ManagerState) (server_name : String) : ManagerState :=
  ⟨some server_name, []⟩

/-!
`fetch_secrets` (fetcher.py) with the external collector
(`AsyncUIHandler.collect_secrets_async`, ui_handler.py) as an input.
The dialog task's eventual disposition is one of: cancelled as a task
(`asyncio.CancelledError` at the `await`), the handler returning `None`
(collector exit code 1, user cancelled), the handler raising (missing
binary, bad JSON, non-zero/non-one exit), or a completed JSON object,
modelled as an association list in insertion order.
-/

/-- Disposition of the dialog task when `fetch_secrets` awaits it. -/
inductive DialogResult where
  | taskCancelled
  | userCancelled
  | opFailed (msg : String)
  | completed (secrets : List (String × String))
deriving DecidableEq, Repr

/-- How `fetch_secrets` ends: a normal `(status, message)` return, or an
exception that propagates out (only the dialog handler raises one). -/
inductive FetchOutcome where
  | ret (status : Bool) (msg : String)
  | raised (msg : String)
deriving DecidableEq, Repr

/-- Step 4 of `fetch_secrets`: store each collected field whose value is
non-empty (`if value:`), in iteration order. -/
def storeCollected (kr : Keyring) (secrets : List (String × String)) : Keyring :=
  secrets.foldl (fun acc p => if p.2 ≠ "" then store_secret acc p.1 p.2 else acc) kr

/-- `fetch_secrets`: the confirmation elicitation (`response_type=None`,
only `action` is meaningful) and the dialog disposition are inputs; the
result carries the outcome, the keyring afterwards, and whether
`dialog_task.cancel()` was called. -/
def fetch_secrets (confirmAction : String) (dialog : DialogResult)
    (kr : Keyring) : FetchOutcome × Keyring × Bool :=
  if confirmAction ≠ "accept" then
    (.ret false "❌ Secrets fetch cancelled by user.", kr, true)
  else
    match dialog with
    | .taskCancelled => (.ret false "❌ Dialog cancelled.", kr, false)
    | .opFailed msg => (.raised msg, kr, false)
    | .userCancelled => (.ret false "❌ Dialog was cancelled by user.", kr, false)
    | .completed secrets =>
        if secrets.isEmpty then
          (.ret false "❌ Dialog was cancelled by user.", kr, false)
        else
          let stored_count := (secrets.filter (fun p => p.2 ≠ "")).length
          (.ret true ("✅ Successfully stored " ++ toString stored_count ++ " credentials."),
           storeCollected kr secrets, false)

/-!
Supporting lemmas about the storage operations.
-/

theorem getSecretIndex_kset_ne (kr : Keyring) (k : String) (v : KVal)
    (h : k ≠ indexKey) : getSecretIndex (kset kr k v) = getSecretIndex kr := by
  unfold getSecretIndex
  rw [kget_kset_ne kr k indexKey v (Ne.symm h)]

theorem kget_updateSecretIndex_ne (kr : Keyring) (n m : String)
    (h : m ≠ indexKey) : kget (updateSecretIndex kr n) m = kget kr m := by
  unfold updateSecretIndex
  exact kget_kset_ne kr indexKey m _ h

theorem kget_store_self (kr : Keyring) (n v : String) (h : n ≠ indexKey) :
    kget (store_secret kr n v) n = some (.str v) := by
  unfold store_secret
  rw [kget_updateSecretIndex_ne _ _ _ h]
  exact kget_kset_self kr n (.str v)

theorem kget_store_ne (kr : Keyring) (n v : String) (m : String)
    (hm : m ≠ n) (hidx : m ≠ indexKey) :
    kget (store_secret kr n v) m = kget kr m := by
  unfold store_secret
  rw [kget_updateSecretIndex_ne _ _ _ hidx]
  exact kget_kset_ne kr n m (.str v) hm

theorem kget_removeFromSecretIndex (kr : Keyring) (n m : String)
    (h : m ≠ indexKey) : kget (removeFromSecretIndex kr n) m = kget kr m := by
  unfold removeFromSecretIndex
  set index := (getSecretIndex kr).filter (fun x => x ≠ n) with hidx
  by_cases he : index.isEmpty
  · simp only [he, if_true]
    unfold kdelete
    by_cases hs : (kget kr indexKey).isSome
    · simp only [hs, if_true]
      exact kget_kerase_ne kr indexKey m h
    · simp [hs]
  · simp only [he, if_false]
    exact kget_kset_ne kr indexKey m _ h

/-- Claim C7: for every state, name other than the reserved index key, and
value `v`, `retrieve_secret` immediately after `store_secret name v`
returns `v`, and `retrieve_secret` immediately after a successful
`delete_secret name` returns `none` (absence, not an error). -/
theorem c7_store_retrieve_roundtrip (kr : Keyring) (name v : String)
    (h : name ≠ indexKey) :
    retrieve_secret (store_secret kr name v) name = some v ∧
    ∀ kr', delete_secret kr name = some kr' →
      retrieve_secret kr' name = none := by
  constructor
  · unfold retrieve_secret
    rw [kget_store_self kr name v h]
    rfl
  · intro kr' hdel
    unfold delete_secret at hdel
    cases hd : kdelete kr name with
    | none => rw [hd] at hdel; simp at hdel
    | some kr1 =>
        rw [hd] at hdel
        simp only [Option.map_some'] at hdel
        have h1 := (kdelete_some hd).1
        have hdel' : removeFromSecretIndex kr1 name = kr' := by
          injection hdel
        unfold retrieve_secret
        rw [← hdel', kget_removeFromSecretIndex kr1 name name h, h1]
        rfl

/-- Witness for C7 at a concrete input. -/
theorem c7_store_retrieve_roundtrip_witness :
    retrieve_secret (store_secret [] "api_key" "sk-123") "api_key" = some "sk-123" ∧
    retrieve_secret [] "api_key" = none := by
  refine ⟨(c7_store_retrieve_roundtrip [] "api_key" "sk-123" (by decide)).1, rfl⟩

/-- Counterexample to claim C10: the constructor's guard is the Python
truthiness test `if server_name:`, not an is-not-`None` test, so the
non-`None` but falsy argument `""` skips the `_initalize_manager` call and
the constructor returns an unbound manager instead of raising. -/
theorem c10_counterexample :
    managerInit (some "") = .ok ⟨none, []⟩ := by
  rfl

/-- Claim C10 (amended): constructing the manager with a truthy (non-`None`
and non-empty) server name always raises (the constructor calls the
undefined `_initalize_manager`), while `None` or an empty server name
yields an unbound manager; so the only working path to a bound manager is
a constructor call without a truthy name followed by
`initialize(server_name)`, which binds storage and resets the session
permission cache to empty. -/
theorem c10_truthy_name_raises :
    (∀ s : String, s ≠ "" →
      managerInit (some s) =
        .error "AttributeError: MCPSecretsManager has no attribute _initalize_manager") ∧
    managerInit none = .ok ⟨none, []⟩ ∧
    managerInit (some "") = .ok ⟨none, []⟩ ∧
    ∀ (m : ManagerState) (s : String),
      managerInitialize m s = ⟨some s, []⟩ := by
  refine ⟨fun s hs => ?_, rfl, rfl, fun m s => rfl⟩
  simp only [managerInit]
  rw [if_neg hs]

/-- Witness for the amended C10: the truthy name `"srv"` raises. -/
theorem c10_truthy_name_raises_witness :
    managerInit (some "srv") =
      .error "AttributeError: MCPSecretsManager has no attribute _initalize_manager" :=
  c10_truthy_name_raises.1 "srv" (by decide)

/-- Claim C6: whenever the in-protocol confirmation is not accepted
(declined or cancelled), `fetch_secrets` cancels the dialog task, reports
the user-cancellation message with a failure status, and leaves the
keyring unchanged — for every dialog disposition, including one that has
already produced output. -/
theorem c6_confirm_not_accepted (confirmAction : String)
    (dialog : DialogResult) (kr : Keyring) (h : confirmAction ≠ "accept") :
    fetch_secrets confirmAction dialog kr =
      (.ret false "❌ Secrets fetch cancelled by user.", kr, true) := by
  unfold fetch_secrets
  simp [h]

/-- Witness for C6: a declined confirmation with a dialog that already
produced a value stores nothing and reports cancellation. -/
theorem c6_confirm_not_accepted_witness :
    fetch_secrets "decline" (.completed [("api_key", "sk-999")]) [] =
      (.ret false "❌ Secrets fetch cancelled by user.", [], true) :=
  c6_confirm_not_accepted "decline" (.completed [("api_key", "sk-999")]) []
    (by decide)

/-- Claim C5: when the interactive prompt is reached (secret exists, no
bypass, no session grant, live context) and the user chooses "Deny" or the
prompt outcome is not accepted (declined or cancelled, or no choice text),
the call raises the permission-denied message and the session permission
cache is exactly as before. -/
theorem c5_deny_no_state_change (kr : Keyring) (perms : List String)
    (name : String) (response : ElicitResult)
    (hex : secret_exists kr name = true) (hperm : name ∉ perms)
    (hchoice : response.action ≠ "accept" ∨ dataFalsy response.data = true ∨
      pyStrip (response.data.getD "") = "Deny") :
    retrieve_secret_with_permission kr perms name false true response =
      ⟨.error ("Permission denied for secret: " ++ name), perms, true⟩ := by
  unfold retrieve_secret_with_permission
  simp only [hex, Bool.true_eq_false, not_true_eq_false, if_false,
    Bool.false_eq_true, hperm, not_false_eq_true, if_true, if_false]
  rcases hchoice with h | h | h
  · simp [h]
  · simp [h]
  · by_cases ha : response.action ≠ "accept" ∨ dataFalsy response.data = true
    · rcases ha with ha | ha
      · simp [ha]
      · simp [ha]
    · push_neg at ha
      simp [ha.1, ha.2, h]

/-- Witness for C5: a declined prompt leaves the cache unchanged and
raises. -/
theorem c5_deny_no_state_change_witness :
    retrieve_secret_with_permission (store_secret [] "api_key" "sk-123") []
        "api_key" false true ⟨"decline", none⟩ =
      ⟨.error "Permission denied for secret: api_key", [], true⟩ :=
  c5_deny_no_state_change (store_secret [] "api_key" "sk-123") [] "api_key"
    ⟨"decline", none⟩ (by decide) (by simp) (by left; decide)

/-- Counterexample to claim C1: with the secret `"api_key" = "sk-123"`
stored, an accepted prompt whose textual choice is `"Whatever"` — none of
"Allow", "Allow for Session", "Deny" — does not fail: the call returns the
secret value and leaves the cache unchanged. -/
theorem c1_counterexample :
    retrieve_secret_with_permission (store_secret [] "api_key" "sk-123") []
        "api_key" false true ⟨"accept", some "Whatever"⟩ =
      ⟨.ok (some "sk-123"), [], true⟩ := by
  rfl

/-- Claim C1 (amended): when the prompt is reached, an accepted prompt
whose non-empty textual choice is any value other than "Deny" and
"Allow for Session" is treated identically to "Allow": the secret value is
returned and the session cache is unchanged.  Only a non-accepted outcome
or an empty/missing choice is treated like "Deny". -/
theorem c1_unknown_choice_acts_as_allow (kr : Keyring) (perms : List String)
    (name : String) (d : String)
    (hex : secret_exists kr name = true) (hperm : name ∉ perms)
    (hd : d ≠ "") (hdeny : pyStrip d ≠ "Deny")
    (hsess : pyStrip d ≠ "Allow for Session") :
    retrieve_secret_with_permission kr perms name false true ⟨"accept", some d⟩ =
      ⟨.ok (retrieve_secret kr name), perms, true⟩ := by
  unfold retrieve_secret_with_permission
  simp [hex, hperm, dataFalsy, hd, hdeny, hsess]

/-- Witness for the amended C1 at the counterexample's input. -/
theorem c1_unknown_choice_acts_as_allow_witness :
    retrieve_secret_with_permission (store_secret [] "api_key" "sk-123") []
        "api_key" false true ⟨"accept", some "Whatever"⟩ =
      ⟨.ok (retrieve_secret (store_secret [] "api_key" "sk-123") "api_key"),
        [], true⟩ :=
  c1_unknown_choice_acts_as_allow (store_secret [] "api_key" "sk-123") []
    "api_key" "Whatever" (by decide) (by simp) (by decide) (by decide) (by decide)

/-- Claim C4: within one manager lifetime the per-secret permission state
only moves `NoGrant → GrantedForSession`, and only on an accepted
"Allow for Session" choice (part 4); a one-time "Allow" returns the value
but leaves the cache unchanged, so the next call still prompts (part 2);
"Allow for Session" returns the value and adds the name to the cache
(part 3); and once the name is cached every subsequent call returns the
value without prompting (part 1). -/
theorem c4_session_grant_lifecycle (kr : Keyring) (perms : List String)
    (name : String) (response : ElicitResult) :
    (secret_exists kr name = true → name ∈ perms →
      retrieve_secret_with_permission kr perms name false true response =
        ⟨.ok (retrieve_secret kr name), perms, false⟩) ∧
    (∀ d : String, secret_exists kr name = true → name ∉ perms →
      response.action = "accept" → response.data = some d → d ≠ "" →
      pyStrip d = "Allow" →
      retrieve_secret_with_permission kr perms name false true response =
        ⟨.ok (retrieve_secret kr name), perms, true⟩) ∧
    (∀ d : String, secret_exists kr name = true → name ∉ perms →
      response.action = "accept" → response.data = some d → d ≠ "" →
      pyStrip d = "Allow for Session" →
      retrieve_secret_with_permission kr perms name false true response =
        ⟨.ok (retrieve_secret kr name), perms.insert name, true⟩) ∧
    (∀ bypass hasCtx : Bool,
      (retrieve_secret_with_permission kr perms name bypass hasCtx response).perms
          = perms ∨
      ((retrieve_secret_with_permission kr perms name bypass hasCtx response).perms
          = perms.insert name ∧
        response.action = "accept" ∧ dataFalsy response.data = false ∧
        pyStrip (response.data.getD "") = "Allow for Session")) := by
  refine ⟨?_, ?_, ?_, ?_⟩
  · intro hex hperm
    unfold retrieve_secret_with_permission
    simp [hex, hperm]
  · intro d hex hperm hacc hdata hd hallow
    unfold retrieve_secret_with_permission
    simp [hex, hperm, hacc, hdata, dataFalsy, hd, hallow]
  · intro d hex hperm hacc hdata hd hallow
    unfold retrieve_secret_with_permission
    simp [hex, hperm, hacc, hdata, dataFalsy, hd, hallow]
  · intro bypass hasCtx
    unfold retrieve_secret_with_permission
    by_cases hex : secret_exists kr name
    · by_cases hb : bypass
      · simp [hex, hb]
      · by_cases hperm : name ∈ perms
        · simp [hex, hb, hperm]
        · by_cases hctx : hasCtx
          · by_cases hden : response.action ≠ "accept" ∨ dataFalsy response.data
            · simp [hex, hb, hperm, hctx, hden]
            · push_neg at hden
              by_cases hdeny : pyStrip (response.data.getD "") = "Deny"
              · simp [hex, hb, hperm, hctx, hden.1, hden.2, hdeny]
              · by_cases hsess : pyStrip (response.data.getD "") = "Allow for Session"
                · right
                  simp [hex, hb, hperm, hctx, hden.1, hden.2, hdeny, hsess]
                · simp [hex, hb, hperm, hctx, hden.1, hden.2, hdeny, hsess]
          · simp [hex, hb, hperm, hctx]
    · simp [hex]

/-- Witness for C4: the "Allow for Session" choice caches the grant and a
following call with a deny response still succeeds without prompting. -/
theorem c4_session_grant_lifecycle_witness :
    retrieve_secret_with_permission (store_secret [] "api_key" "sk-123") []
        "api_key" false true ⟨"accept", some "Allow for Session"⟩ =
      ⟨.ok (retrieve_secret (store_secret [] "api_key" "sk-123") "api_key"),
        ["api_key"], true⟩ ∧
    retrieve_secret_with_permission (store_secret [] "api_key" "sk-123")
        ["api_key"] "api_key" false true ⟨"decline", none⟩ =
      ⟨.ok (retrieve_secret (store_secret [] "api_key" "sk-123") "api_key"),
        ["api_key"], false⟩ := by
  constructor
  · exact (c4_session_grant_lifecycle (store_secret [] "api_key" "sk-123") []
      "api_key" ⟨"accept", some "Allow for Session"⟩).2.2.1 "Allow for Session"
      (by decide) (by simp) rfl rfl (by decide) (by decide)
  · exact (c4_session_grant_lifecycle (store_secret [] "api_key" "sk-123")
      ["api_key"] "api_key" ⟨"decline", none⟩).1 (by decide) (by simp)

theorem storeCollected_all_blank (l : List (String × String)) (kr : Keyring)
    (h : ∀ p ∈ l, p.2 = "") : storeCollected kr l = kr := by
  induction l generalizing kr with
  | nil => rfl
  | cons q rest ih =>
      have hq : q.2 = "" := h q (List.mem_cons_self q rest)
      have : ∀ p ∈ rest, p.2 = "" := fun p hp => h p (List.mem_cons_of_mem q hp)
      simp only [storeCollected, List.foldl_cons, hq]
      simpa [storeCollected] using ih kr this

theorem kget_storeCollected_notmem (l : List (String × String)) (kr : Keyring)
    (m : String) (hm : m ∉ l.map Prod.fst) (hmidx : m ≠ indexKey) :
    kget (storeCollected kr l) m = kget kr m := by
  induction l generalizing kr with
  | nil => rfl
  | cons q rest ih =>
      have hm1 : m ≠ q.1 := by
        intro hcontra
        exact hm (by simp [hcontra])
      have hm2 : m ∉ rest.map Prod.fst := by
        intro hcontra
        exact hm (by simp [hcontra])
      by_cases hq : q.2 = ""
      · simpa [storeCollected, List.foldl_cons, hq] using
          ih kr hm2
      · simp only [storeCollected, List.foldl_cons, if_pos hq]
        rw [show List.foldl
              (fun acc p => if p.2 ≠ "" then store_secret acc p.1 p.2 else acc)
              (store_secret kr q.1 q.2) rest =
            storeCollected (store_secret kr q.1 q.2) rest from rfl]
        rw [ih (store_secret kr q.1 q.2) hm2]
        exact kget_store_ne kr q.1 q.2 m hm1 hmidx

theorem retrieve_storeCollected_mem (l : List (String × String)) (kr : Keyring)
    (hnodup : (l.map Prod.fst).Nodup) (hkeys : ∀ p ∈ l, p.1 ≠ indexKey) :
    ∀ p ∈ l, p.2 ≠ "" → retrieve_secret (storeCollected kr l) p.1 = some p.2 := by
  induction l generalizing kr with
  | nil => intro p hp; simp at hp
  | cons q rest ih =>
      intro p hp hpv
      have hqidx : q.1 ≠ indexKey := hkeys q (List.mem_cons_self q rest)
      have hrest_nodup : (rest.map Prod.fst).Nodup := by
        simpa using hnodup.of_cons
      have hrest_keys : ∀ p ∈ rest, p.1 ≠ indexKey :=
        fun p hp => hkeys p (List.mem_cons_of_mem q hp)
      have hqnot : q.1 ∉ rest.map Prod.fst := by
        have h := hnodup
        simp only [List.map_cons, List.nodup_cons] at h
        exact h.1
      rcases List.mem_cons.mp hp with hpq | hptail
      · subst hpq
        simp only [storeCollected, List.foldl_cons, if_pos hpv]
        rw [show List.foldl
              (fun acc p => if p.2 ≠ "" then store_secret acc p.1 p.2 else acc)
              (store_secret kr p.1 p.2) rest =
            storeCollected (store_secret kr p.1 p.2) rest from rfl]
        unfold retrieve_secret
        rw [kget_storeCollected_notmem rest (store_secret kr p.1 p.2) p.1
          hqnot hqidx]
        rw [kget_store_self kr p.1 p.2 hqidx]
        rfl
      · by_cases hq : q.2 = ""
        · simp only [storeCollected, List.foldl_cons, hq]
          simpa [storeCollected] using
            ih kr hrest_nodup hrest_keys p hptail hpv
        · simp only [storeCollected, List.foldl_cons, if_pos hq]
          exact ih (store_secret kr q.1 q.2) hrest_nodup hrest_keys
            p hptail hpv

theorem retrieve_storeCollected_blank (l : List (String × String))
    (kr : Keyring) (n : String) (hnidx : n ≠ indexKey)
    (hblank : ∀ v, (n, v) ∈ l → v = "") :
    retrieve_secret (storeCollected kr l) n = retrieve_secret kr n := by
  induction l generalizing kr with
  | nil => rfl
  | cons q rest ih =>
      have hrest : ∀ v, (n, v) ∈ rest → v = "" :=
        fun v hv => hblank v (List.mem_cons_of_mem q hv)
      by_cases hq : q.2 = ""
      · simp only [storeCollected, List.foldl_cons, hq]
        simpa [storeCollected] using ih kr hrest
      · have hqn : q.1 ≠ n := by
          intro hcontra
          exact hq (hblank q.2 (by
            have : q = (n, q.2) := by
              cases q with
              | mk a b => simp at hcontra ⊢; exact hcontra
            rw [← this]
            exact List.mem_cons_self q rest))
        simp only [storeCollected, List.foldl_cons, if_pos hq]
        rw [show List.foldl
              (fun acc p => if p.2 ≠ "" then store_secret acc p.1 p.2 else acc)
              (store_secret kr q.1 q.2) rest =
            storeCollected (store_secret kr q.1 q.2) rest from rfl]
        rw [ih (store_secret kr q.1 q.2) hrest]
        unfold retrieve_secret
        rw [kget_store_ne kr q.1 q.2 n (Ne.symm hqn) hnidx]

/-- Claim C9: for an accepted collection whose collector result is
non-empty, `fetch_secrets` stores exactly the fields with a non-empty
provided value (blank fields are not written, so their previously stored
values are untouched), and reports success with a count equal to the
number of non-empty fields. -/
theorem c9_stores_exactly_nonempty_fields (kr : Keyring)
    (l : List (String × String)) (hne : l ≠ [])
    (hnodup : (l.map Prod.fst).Nodup)
    (hkeys : ∀ p ∈ l, p.1 ≠ indexKey) :
    fetch_secrets "accept" (.completed l) kr =
      (.ret true ("✅ Successfully stored " ++
          toString (l.filter (fun p => p.2 ≠ "")).length ++ " credentials."),
        storeCollected kr l, false) ∧
    (∀ p ∈ l, p.2 ≠ "" →
      retrieve_secret (storeCollected kr l) p.1 = some p.2) ∧
    (∀ n, n ≠ indexKey → (∀ v, (n, v) ∈ l → v = "") →
      retrieve_secret (storeCollected kr l) n = retrieve_secret kr n) := by
  refine ⟨?_, retrieve_storeCollected_mem l kr hnodup hkeys,
    fun n hnidx hblank => retrieve_storeCollected_blank l kr n hnidx hblank⟩
  unfold fetch_secrets
  simp [hne]

/-- Witness for C9, the spec's own scenario: the collector returns
`api_key = "sk-123"` and a blank `endpoint`; only `api_key` is written,
`endpoint` keeps its previously stored value, and the count is 1. -/
theorem c9_stores_exactly_nonempty_fields_witness :
    fetch_secrets "accept"
        (.completed [("api_key", "sk-123"), ("endpoint", "")])
        (store_secret [] "endpoint" "https://api.example.com") =
      (.ret true "✅ Successfully stored 1 credentials.",
        storeCollected (store_secret [] "endpoint" "https://api.example.com")
          [("api_key", "sk-123"), ("endpoint", "")], false) ∧
    retrieve_secret
        (storeCollected (store_secret [] "endpoint" "https://api.example.com")
          [("api_key", "sk-123"), ("endpoint", "")]) "api_key" =
      some "sk-123" ∧
    retrieve_secret
        (storeCollected (store_secret [] "endpoint" "https://api.example.com")
          [("api_key", "sk-123"), ("endpoint", "")]) "endpoint" =
      some "https://api.example.com" := by
  have h := c9_stores_exactly_nonempty_fields
    (store_secret [] "endpoint" "https://api.example.com")
    [("api_key", "sk-123"), ("endpoint", "")]
    (by decide) (by decide) (by decide)
  refine ⟨h.1, ?_, ?_⟩
  · exact h.2.1 ("api_key", "sk-123") (by decide) (by decide)
  · have := h.2.2 "endpoint" (by decide) (by
      intro v hv
      simp only [List.mem_cons, List.not_mem_nil, or_false,
        Prod.mk.injEq] at hv
      rcases hv with ⟨h1, _⟩ | ⟨_, h2⟩
      · exact absurd h1 (by decide)
      · exact h2)
    rw [this]
    exact (c7_store_retrieve_roundtrip [] "endpoint" "https://api.example.com"
      (by decide)).1

/-- Counterexample to claim C3: an accepted confirmation whose collector
result has one field and it is blank — every field blank — is reported as
a success ("Successfully stored 0 credentials."), not as a user
cancellation; the keyring is unchanged but the status is `true`. -/
theorem c3_counterexample :
    fetch_secrets "accept" (.completed [("api_key", "")]) [] =
      (.ret true "✅ Successfully stored 0 credentials.", [], false) := by
  rfl

/-- Claim C3 (amended): for an accepted confirmation, only a collector
that reports nothing — the task returns `None` (user-cancel exit code) or
an empty mapping — is reported as a user cancellation with no secret
stored; a non-empty mapping all of whose fields are blank is reported as
a success with count 0 (still storing no secret). -/
theorem c3_empty_result_reporting (kr : Keyring)
    (l : List (String × String)) :
    fetch_secrets "accept" .userCancelled kr =
      (.ret false "❌ Dialog was cancelled by user.", kr, false) ∧
    fetch_secrets "accept" (.completed []) kr =
      (.ret false "❌ Dialog was cancelled by user.", kr, false) ∧
    (l ≠ [] → (∀ p ∈ l, p.2 = "") →
      fetch_secrets "accept" (.completed l) kr =
        (.ret true "✅ Successfully stored 0 credentials.", kr, false)) := by
  refine ⟨rfl, rfl, fun hne hblank => ?_⟩
  unfold fetch_secrets
  rw [if_neg (show ¬("accept" : String) ≠ "accept" from fun h => h rfl)]
  have hfilter : List.filter (fun p => !decide (p.2 = "")) l = [] := by
    apply List.filter_eq_nil_iff.mpr
    intro p hp
    simp [hblank p hp]
  have hempty : l.isEmpty = false := by
    cases l with
    | nil => exact absurd rfl hne
    | cons q rest => rfl
  simp only [ne_eq, decide_not, hempty, Bool.false_eq_true, if_false,
    hfilter, List.length_nil, storeCollected_all_blank l kr hblank]
  rfl

/-- Witness for the amended C3: a two-field all-blank result over a store
holding a previous `endpoint` value reports success with count 0 and
leaves the store unchanged. -/
theorem c3_empty_result_reporting_witness :
    fetch_secrets "accept"
        (.completed [("api_key", ""), ("endpoint", "")])
        (store_secret [] "endpoint" "https://api.example.com") =
      (.ret true "✅ Successfully stored 0 credentials.",
        store_secret [] "endpoint" "https://api.example.com", false) :=
  (c3_empty_result_reporting (store_secret [] "endpoint" "https://api.example.com")
      [("api_key", ""), ("endpoint", "")]).2.2 (by decide) (by decide)

theorem getSecretIndex_kset_idx (kr : Keyring) (I : List String) :
    getSecretIndex (kset kr indexKey (.idx I)) = I.dedup := by
  unfold getSecretIndex
  rw [kget_kset_self]
  rfl

theorem getSecretIndex_updateSecretIndex (kr : Keyring) (n : String) :
    getSecretIndex (updateSecretIndex kr n) =
      (if n ∈ getSecretIndex kr then getSecretIndex kr
       else getSecretIndex kr ++ [n]).dedup := by
  unfold updateSecretIndex
  exact getSecretIndex_kset_idx kr _

theorem mem_getSecretIndex_store (kr : Keyring) (n v : String)
    (hn : n ≠ indexKey) (m : String) :
    m ∈ getSecretIndex (store_secret kr n v) ↔
      m ∈ getSecretIndex kr ∨ m = n := by
  unfold store_secret
  rw [getSecretIndex_updateSecretIndex, getSecretIndex_kset_ne kr n (.str v) hn]
  by_cases hmem : n ∈ getSecretIndex kr
  · simp only [hmem, if_true, List.mem_dedup]
    constructor
    · exact Or.inl
    · rintro (h | h)
      · exact h
      · rw [h]; exact hmem
  · simp only [hmem, if_false, List.mem_dedup, List.mem_append,
      List.mem_singleton]

theorem mem_getSecretIndex_removeFrom (kr : Keyring) (n m : String) :
    m ∈ getSecretIndex (removeFromSecretIndex kr n) ↔
      (m ∈ getSecretIndex kr ∧ m ≠ n) := by
  unfold removeFromSecretIndex
  set idx := (getSecretIndex kr).filter (fun x => x ≠ n) with hidx
  have hmemfilter : ∀ x, x ∈ idx ↔ x ∈ getSecretIndex kr ∧ x ≠ n := by
    intro x
    rw [hidx, List.mem_filter]
    simp
  by_cases he : idx.isEmpty
  · simp only [he, if_true]
    have hnone : ∀ x ∈ getSecretIndex kr, x = n := by
      intro x hx
      by_contra hcontra
      have hmemidx : x ∈ idx := (hmemfilter x).mpr ⟨hx, hcontra⟩
      rw [List.isEmpty_iff] at he
      rw [he] at hmemidx
      exact absurd hmemidx (List.not_mem_nil x)
    cases hd : kdelete kr indexKey with
    | some kr' =>
        have hkr' : kget kr' indexKey = none := (kdelete_some hd).1
        simp only [hd]
        have hkr'e : getSecretIndex kr' = [] := by
          unfold getSecretIndex
          rw [hkr']
          rfl
        rw [hkr'e]
        simp only [List.not_mem_nil, false_iff]
        rintro ⟨hm, hmn⟩
        exact hmn (hnone m hm)
    | none =>
        have hnotsome : (kget kr indexKey).isSome = false := by
          have h2 := kdelete_isSome kr indexKey
          rw [hd] at h2
          exact h2.symm
        have hkr : kget kr indexKey = none := by
          cases hk : kget kr indexKey with
          | none => rfl
          | some v => rw [hk] at hnotsome; simp at hnotsome
        simp only [hd]
        have hkre : getSecretIndex kr = [] := by
          unfold getSecretIndex
          rw [hkr]
          rfl
        rw [hkre]
        simp
  · simp only [he, Bool.false_eq_true, if_false]
    rw [getSecretIndex_kset_idx, List.mem_dedup]
    exact hmemfilter m

theorem mem_getSecretIndex_delete {kr kr1 : Keyring} {n : String}
    (hn : n ≠ indexKey) (hdel : delete_secret kr n = some kr1) (m : String) :
    m ∈ getSecretIndex kr1 ↔ (m ∈ getSecretIndex kr ∧ m ≠ n) := by
  unfold delete_secret at hdel
  cases hd : kdelete kr n with
  | none => rw [hd] at hdel; simp at hdel
  | some kr0 =>
      rw [hd] at hdel
      simp only [Option.map_some'] at hdel
      have hdel' : removeFromSecretIndex kr0 n = kr1 := by injection hdel
      have h0 : getSecretIndex kr0 = getSecretIndex kr := by
        unfold getSecretIndex
        rw [(kdelete_some hd).2 indexKey (Ne.symm hn)]
      rw [← hdel', mem_getSecretIndex_removeFrom kr0 n m, h0]

/-!
Sequences of `store_secret` / `delete_secret` operations, for the
enumeration property of the store.
-/

/-- One store-level operation on an Identity. -/
inductive StoreOp where
  | store (name value : String)
  | del (name : String)
deriving DecidableEq, Repr

/-- The secret name an operation addresses. -/
def opName : StoreOp → String
  | .store n _ => n
  | .del n => n

/-- Run one operation; a `delete_secret` of an absent key fails. -/
def applyOp (kr : Keyring) : StoreOp → Option Keyring
  | .store n v => some (store_secret kr n v)
  | .del n => delete_secret kr n

/-- Run a sequence of operations left to right; the first failure
propagates. -/
def applyOps : List StoreOp → Keyring → Option Keyring
  | [], kr => some kr
  | op :: ops, kr =>
      match applyOp kr op with
      | none => none
      | some kr' => applyOps ops kr'

/-- The specification-level set of names after a sequence: names stored
and not subsequently deleted. -/
def specNames : List StoreOp → List String → List String
  | [], acc => acc
  | .store n _ :: ops, acc => specNames ops (acc.insert n)
  | .del n :: ops, acc => specNames ops (acc.filter (fun x => x ≠ n))

theorem mem_list_secrets (kr : Keyring) (n : String) :
    n ∈ list_secrets kr ↔ n ∈ getSecretIndex kr := by
  unfold list_secrets
  by_cases he : (getSecretIndex kr).isEmpty
  · rw [List.isEmpty_iff] at he
    simp [he]
  · simp [he]

theorem applyOps_index_spec (ops : List StoreOp) (kr : Keyring)
    (acc : List String) (hops : ∀ op ∈ ops, opName op ≠ indexKey)
    (hinv : ∀ n, n ∈ getSecretIndex kr ↔ n ∈ acc) :
    ∀ kr', applyOps ops kr = some kr' →
      ∀ n, n ∈ getSecretIndex kr' ↔ n ∈ specNames ops acc := by
  induction ops generalizing kr acc with
  | nil =>
      intro kr' happ n
      unfold applyOps at happ
      have hk : kr = kr' := by injection happ
      rw [← hk]
      exact hinv n
  | cons op rest ih =>
      intro kr' happ n
      have hrest : ∀ o ∈ rest, opName o ≠ indexKey :=
        fun o ho => hops o (List.mem_cons_of_mem op ho)
      have hop : opName op ≠ indexKey := hops op (List.mem_cons_self op rest)
      cases op with
      | store nm v =>
          have happ' : applyOps rest (store_secret kr nm v) = some kr' := by
            simpa [applyOps, applyOp] using happ
          have hinv' : ∀ m, m ∈ getSecretIndex (store_secret kr nm v) ↔
              m ∈ acc.insert nm := by
            intro m
            rw [mem_getSecretIndex_store kr nm v hop m, List.mem_insert_iff]
            rw [hinv m]
            tauto
          exact ih (store_secret kr nm v) (acc.insert nm) hrest hinv' kr'
            happ' n
      | del nm =>
          have hop' : nm ≠ indexKey := hop
          cases hd : delete_secret kr nm with
          | none =>
              simp [applyOps, applyOp, hd] at happ
          | some kr1 =>
              have happ' : applyOps rest kr1 = some kr' := by
                simpa [applyOps, applyOp, hd] using happ
              have hinv' : ∀ m, m ∈ getSecretIndex kr1 ↔
                  m ∈ acc.filter (fun x => x ≠ nm) := by
                intro m
                rw [mem_getSecretIndex_delete hop' hd m, List.mem_filter]
                rw [hinv m]
                simp
              exact ih kr1 (acc.filter (fun x => x ≠ nm)) hrest hinv' kr'
                happ' n

/-- Claim C8: for every finite sequence of store/delete operations on one
Identity (with names other than the reserved index key), starting from an
empty keyring, `list_secrets` afterwards contains exactly the names stored
and not subsequently deleted; and on any state where the index key is
absent, `list_secrets` returns the empty list (never an error). -/
theorem c8_list_after_op_sequence (ops : List StoreOp) (kr' : Keyring)
    (hops : ∀ op ∈ ops, opName op ≠ indexKey)
    (happ : applyOps ops [] = some kr') :
    (∀ n, n ∈ list_secrets kr' ↔ n ∈ specNames ops []) ∧
    ∀ kr : Keyring, kget kr indexKey = none → list_secrets kr = [] := by
  constructor
  · intro n
    rw [mem_list_secrets]
    exact applyOps_index_spec ops [] [] hops (fun m => by
      constructor
      · intro h; exact absurd h (List.not_mem_nil m)
      · intro h; exact absurd h (List.not_mem_nil m)) kr' happ n
  · intro kr hnone
    unfold list_secrets getSecretIndex
    rw [hnone]
    rfl

/-- Witness for C8: after storing `a` and `b` and deleting `a`, the listed
names agree with the specification set on both `a` and `b`. -/
theorem c8_list_after_op_sequence_witness :
    (("b" ∈ list_secrets [("__secret_index__", KVal.idx ["b"]), ("b", KVal.str "2")]) ↔
      "b" ∈ specNames [StoreOp.store "a" "1", StoreOp.store "b" "2", StoreOp.del "a"] []) ∧
    (("a" ∈ list_secrets [("__secret_index__", KVal.idx ["b"]), ("b", KVal.str "2")]) ↔
      "a" ∈ specNames [StoreOp.store "a" "1", StoreOp.store "b" "2", StoreOp.del "a"] []) := by
  have h := c8_list_after_op_sequence
    [StoreOp.store "a" "1", StoreOp.store "b" "2", StoreOp.del "a"]
    [("__secret_index__", KVal.idx ["b"]), ("b", KVal.str "2")]
    (by decide) (by decide)
  exact ⟨h.1 "b", h.1 "a"⟩

theorem getSecretIndex_nodup (kr : Keyring) : (getSecretIndex kr).Nodup := by
  unfold getSecretIndex deserializeIndexContent
  cases kget kr indexKey with
  | none => exact List.nodup_nil
  | some v =>
      cases v with
      | str s => exact List.nodup_nil
      | idx names => exact List.nodup_dedup names

theorem deleteEachSecret_all_present (names : List String) (kr : Keyring)
    (hnodup : names.Nodup) (hidx : indexKey ∉ names)
    (hpresent : ∀ n ∈ names, (kget kr n).isSome) :
    ∃ kr2, deleteEachSecret names kr = some kr2 ∧
      (∀ n ∈ names, kget kr2 n = none) ∧
      (∀ m, m ∉ names → m ≠ indexKey → kget kr2 m = kget kr m) := by
  induction names generalizing kr with
  | nil => exact ⟨kr, rfl, fun n hn => absurd hn (List.not_mem_nil n),
      fun m _ _ => rfl⟩
  | cons n ns ih =>
      have hpres_n : (kget kr n).isSome := hpresent n (List.mem_cons_self n ns)
      have hn_idx : n ≠ indexKey := by
        intro h
        rw [h] at hidx
        exact hidx (List.mem_cons_self indexKey ns)
      have hns_idx : indexKey ∉ ns := fun h => hidx (List.mem_cons_of_mem n h)
      have hn_ns : n ∉ ns := (List.nodup_cons.mp hnodup).1
      have hns_nodup : ns.Nodup := (List.nodup_cons.mp hnodup).2
      have hdel : delete_secret kr n =
          some (removeFromSecretIndex (kerase kr n) n) := by
        unfold delete_secret kdelete
        rw [if_pos hpres_n]
        rfl
      set kr1 := removeFromSecretIndex (kerase kr n) n with hkr1
      have hkr1_ne : ∀ m, m ≠ n → m ≠ indexKey → kget kr1 m = kget kr m := by
        intro m hmn hmidx
        rw [hkr1, kget_removeFromSecretIndex _ _ _ hmidx]
        exact kget_kerase_ne kr n m hmn
      have hkr1_n : kget kr1 n = none := by
        rw [hkr1, kget_removeFromSecretIndex _ _ _ hn_idx]
        exact kget_kerase_self kr n
      have hpres' : ∀ x ∈ ns, (kget kr1 x).isSome := by
        intro x hx
        have hxn : x ≠ n := fun h => hn_ns (h ▸ hx)
        have hxidx : x ≠ indexKey := fun h => hns_idx (h ▸ hx)
        rw [hkr1_ne x hxn hxidx]
        exact hpresent x (List.mem_cons_of_mem n hx)
      obtain ⟨kr2, hrun, hgone, hkeep⟩ := ih kr1 hns_nodup hns_idx hpres'
      refine ⟨kr2, ?_, ?_, ?_⟩
      · unfold deleteEachSecret
        rw [hdel]
        exact hrun
      · intro x hx
        rcases List.mem_cons.mp hx with hxn | hxns
        · rw [hxn, hkeep n hn_ns hn_idx]
          exact hkr1_n
        · exact hgone x hxns
      · intro m hm hmidx
        have hmn : m ≠ n := fun h => hm (h ▸ List.mem_cons_self n ns)
        have hmns : m ∉ ns := fun h => hm (List.mem_cons_of_mem n h)
        rw [hkeep m hmns hmidx]
        exact hkr1_ne m hmn hmidx

theorem deleteEachSecret_missing_fails (names : List String) (kr : Keyring)
    (hnodup : names.Nodup) (hidx : indexKey ∉ names)
    (hmiss : ∃ n ∈ names, kget kr n = none) :
    deleteEachSecret names kr = none := by
  induction names generalizing kr with
  | nil =>
      obtain ⟨n, hn, _⟩ := hmiss
      exact absurd hn (List.not_mem_nil n)
  | cons n ns ih =>
      have hn_idx : n ≠ indexKey := by
        intro h
        rw [h] at hidx
        exact hidx (List.mem_cons_self indexKey ns)
      have hns_idx : indexKey ∉ ns := fun h => hidx (List.mem_cons_of_mem n h)
      have hn_ns : n ∉ ns := (List.nodup_cons.mp hnodup).1
      have hns_nodup : ns.Nodup := (List.nodup_cons.mp hnodup).2
      by_cases hpres_n : (kget kr n).isSome
      · have hdel : delete_secret kr n =
            some (removeFromSecretIndex (kerase kr n) n) := by
          unfold delete_secret kdelete
          rw [if_pos hpres_n]
          rfl
        set kr1 := removeFromSecretIndex (kerase kr n) n with hkr1
        obtain ⟨x, hx, hxnone⟩ := hmiss
        have hxns : x ∈ ns := by
          rcases List.mem_cons.mp hx with hxn | hxns
          · rw [hxn] at hxnone
            rw [hxnone] at hpres_n
            simp at hpres_n
          · exact hxns
        have hxn : x ≠ n := fun h => hn_ns (h ▸ hxns)
        have hxidx : x ≠ indexKey := fun h => hns_idx (h ▸ hxns)
        have hx1 : kget kr1 x = none := by
          rw [hkr1, kget_removeFromSecretIndex _ _ _ hxidx,
            kget_kerase_ne kr n x hxn]
          exact hxnone
        have := ih kr1 hns_nodup hns_idx ⟨x, hxns, hx1⟩
        unfold deleteEachSecret
        rw [hdel]
        exact this
      · have hdel : delete_secret kr n = none := by
          unfold delete_secret kdelete
          rw [if_neg hpres_n]
          rfl
        unfold deleteEachSecret
        rw [hdel]

/-- Counterexample to claim C2: on a store whose index names `"a"` while
`"a"` is missing from secure storage (deleted out of band), `clear()`
does not swallow the condition — the `delete_secret` failure propagates
and `clear_secrets` fails instead of completing. -/
theorem c2_counterexample :
    clear_secrets [(indexKey, KVal.idx ["a"])] = none := by
  rfl

/-- Claim C2 (amended): `clear()` deletes every secret named in the index
and removes the index key when every indexed secret is present in secure
storage (only a missing index key itself is tolerated, by the final
`try/except`); but if any secret named in the index is already missing
from secure storage, the failure of `keyring.delete_password` propagates
out of `clear()` instead of being swallowed.  States whose index contains
the reserved index key itself are excluded (the index holds secret
names). -/
theorem c2_clear_deletes_all_or_propagates (kr : Keyring)
    (hres : indexKey ∉ getSecretIndex kr) :
    ((∀ n ∈ getSecretIndex kr, (kget kr n).isSome) →
      (clear_secrets kr).isSome = true ∧
      kget ((clear_secrets kr).getD []) indexKey = none ∧
      ∀ n ∈ getSecretIndex kr, kget ((clear_secrets kr).getD []) n = none) ∧
    ((∃ n ∈ getSecretIndex kr, kget kr n = none) →
      clear_secrets kr = none) := by
  constructor
  · intro hall
    obtain ⟨kr2, hrun, hgone, _⟩ := deleteEachSecret_all_present
      (getSecretIndex kr) kr (getSecretIndex_nodup kr) hres hall
    cases hd : kdelete kr2 indexKey with
    | some kr3 =>
        have hclear : clear_secrets kr = some kr3 := by
          unfold clear_secrets deleteAllSecrets
          rw [hrun]
          simp only [hd]
        refine ⟨by rw [hclear]; rfl, ?_, ?_⟩
        · rw [hclear]
          exact (kdelete_some hd).1
        · intro n hn
          rw [hclear]
          have hnidx : n ≠ indexKey := fun h => hres (h ▸ hn)
          simp only [Option.getD_some]
          rw [(kdelete_some hd).2 n hnidx]
          exact hgone n hn
    | none =>
        have hclear : clear_secrets kr = some kr2 := by
          unfold clear_secrets deleteAllSecrets
          rw [hrun]
          simp only [hd]
        have hkr2idx : kget kr2 indexKey = none := by
          have h2 := kdelete_isSome kr2 indexKey
          rw [hd] at h2
          cases hk : kget kr2 indexKey with
          | none => rfl
          | some v => rw [hk] at h2; simp at h2
        refine ⟨by rw [hclear]; rfl, ?_, ?_⟩
        · rw [hclear]
          exact hkr2idx
        · intro n hn
          rw [hclear]
          exact hgone n hn
  · intro hmiss
    unfold clear_secrets deleteAllSecrets
    rw [deleteEachSecret_missing_fails (getSecretIndex kr) kr
      (getSecretIndex_nodup kr) hres hmiss]

/-- Witness for the amended C2: on a store holding secrets `a` and `b`,
`clear()` succeeds, the index key is gone, and both secrets are gone;
the inconsistent-index state of the counterexample makes it fail. -/
theorem c2_clear_deletes_all_or_propagates_witness :
    (clear_secrets (store_secret (store_secret [] "a" "1") "b" "2")).isSome = true ∧
    kget ((clear_secrets (store_secret (store_secret [] "a" "1") "b" "2")).getD [])
      indexKey = none ∧
    kget ((clear_secrets (store_secret (store_secret [] "a" "1") "b" "2")).getD [])
      "a" = none ∧
    kget ((clear_secrets (store_secret (store_secret [] "a" "1") "b" "2")).getD [])
      "b" = none ∧
    clear_secrets [(indexKey, KVal.idx ["a"]), ("b", KVal.str "2")] = none := by
  have h := (c2_clear_deletes_all_or_propagates
    (store_secret (store_secret [] "a" "1") "b" "2") (by decide)).1 (by decide)
  have h2 := (c2_clear_deletes_all_or_propagates
    [(indexKey, KVal.idx ["a"]), ("b", KVal.str "2")] (by decide)).2
    ⟨"a", by decide, by decide⟩
  exact ⟨h.1, h.2.1, h.2.2 "a" (by decide), h.2.2 "b" (by decide), h2⟩
